import Mathlib

/-!
Verification of the invoice-field extraction core of the repository
(`app/services/transformer_ai.py`, `app/services/lightweight_ai.py`,
`app/services/pdf_processor.py`).

The Python code is shallowly embedded: strings are `String`, Python floats
are modelled as exact rationals `ℚ`, Python dicts are association lists
updated in insertion order, and the regular-expression calls are executed
by a small backtracking engine (`reRun`) implementing the Python `re`
semantics needed by the source patterns (leftmost match, greedy/lazy
preference order, one capture group, lookahead, anchors, word boundaries,
`findall` scanning).  External ML pipelines (the NER and QA transformer
models) are parameters: their raw outputs are inputs to the embedded
functions, exactly at the boundary where the source calls `self.ner_pipeline`
/ `self.qa_pipeline`.
-/

set_option allowUnsafeReducibility true

attribute [semireducible] Rat.add Rat.mul Rat.inv Rat.sub Rat.ofScientific

namespace Invoice

/-! ### Python character classes and string helpers -/

def isPySpace (c : Char) : Bool :=
  c = ' ' ∨ c = '\t' ∨ c = '\n' ∨ c = '\r' ∨ c = Char.ofNat 11 ∨ c = Char.ofNat 12

def isUpperAZ (c : Char) : Bool := 'A' ≤ c ∧ c ≤ 'Z'

def isLowerAZ (c : Char) : Bool := 'a' ≤ c ∧ c ≤ 'z'

def isAlphaAZ (c : Char) : Bool := isUpperAZ c ∨ isLowerAZ c

def isDigit09 (c : Char) : Bool := '0' ≤ c ∧ c ≤ '9'

def isWordChar (c : Char) : Bool := isAlphaAZ c ∨ isDigit09 c ∨ c = '_'

def lowChar (c : Char) : Char :=
  if isUpperAZ c then Char.ofNat (c.toNat + 32) else c

def upChar (c : Char) : Char :=
  if isLowerAZ c then Char.ofNat (c.toNat - 32) else c

def pyLen (s : String) : Nat := s.data.length

def pyLower (s : String) : String := String.mk (s.data.map lowChar)

def pyUpper (s : String) : String := String.mk (s.data.map upChar)

def stripList (l : List Char) : List Char :=
  ((l.dropWhile isPySpace).reverse.dropWhile isPySpace).reverse

def pyStrip (s : String) : String := String.mk (stripList s.data)

/-- `s[a:b]` for 0 ≤ a ≤ b (indices clipped to the string bounds). -/
def pySlice (s : String) (a b : Nat) : String := String.mk ((s.data.take b).drop a)

/-- `hay.find(needle)`: index of the leftmost occurrence. -/
def pyFindList (hay needle : List Char) : Option Nat :=
  (List.range (hay.length + 1)).find? (fun i => needle.isPrefixOf (hay.drop i))

def pyFind (hay needle : String) : Option Nat := pyFindList hay.data needle.data

/-- Python `needle in hay` for strings. -/
def pyContains (hay needle : String) : Bool := (pyFind hay needle).isSome

/-- `re.sub(cls, '', s)` for a negated character class: keep the characters
satisfying `p`. -/
def pyKeep (s : String) (p : Char → Bool) : String := String.mk (s.data.filter p)

/-- `re.sub(r'\s+', ' ', s)`: collapse every maximal whitespace run to a
single space. -/
def collapseWs : List Char → List Char
  | [] => []
  | c :: rest =>
    if isPySpace c then
      match rest with
      | [] => [' ']
      | d :: _ => if isPySpace d then collapseWs rest else ' ' :: collapseWs rest
    else c :: collapseWs rest

def pyCollapseWs (s : String) : String := String.mk (collapseWs s.data)

/-- `s.split(sep)` for a single-character separator (keeps empty pieces). -/
def splitCharList (sep : Char) (l : List Char) : List (List Char) :=
  l.foldr
    (fun c acc =>
      match acc with
      | [] => [[]]
      | h :: t => if c = sep then [] :: h :: t else (c :: h) :: t)
    [[]]

def pySplitOn (sep : Char) (s : String) : List String :=
  (splitCharList sep s.data).map String.mk

/-- `s.split()`: split on whitespace runs, dropping empty pieces. -/
def splitWsList : List Char → List (List Char)
  | [] => []
  | c :: rest =>
    if isPySpace c then splitWsList rest
    else
      match splitWsList rest with
      | [] => [[c]]
      | w :: ws =>
        match rest with
        | [] => [[c]]
        | d :: _ => if isPySpace d then [c] :: w :: ws else (c :: w) :: ws

def pySplitWs (s : String) : List String := (splitWsList s.data).map String.mk

/-- `word.capitalize()`. -/
def pyCapitalize (s : String) : String :=
  match s.data with
  | [] => s
  | c :: rest => String.mk (upChar c :: rest.map lowChar)

def joinSpace : List String → String
  | [] => ""
  | [w] => w
  | w :: rest => w ++ " " ++ joinSpace rest

/-- Python `min` on two floats (modelled on ℚ; kernel-computable). -/
def pymin (a b : ℚ) : ℚ := if a ≤ b then a else b

/-- Python `min` on two ints. -/
def pyminN (a b : Nat) : Nat := if a ≤ b then a else b

/-! ### A small backtracking regex engine (Python `re` semantics)

Constructors cover exactly the features the source patterns use.  `star true`
is greedy `*`, `star false` is lazy `*?`; `rep r lo hi` is `{lo,hi}` (greedy);
`grp` is the single capturing group of a pattern; `look` is `(?=...)`; `bos`
is `^` without MULTILINE, `bol` with MULTILINE; `eos` is `$` without
MULTILINE (end of string, or just before a final newline), `eol` with
MULTILINE; `wb` is `\b`. -/

inductive RE where
  | eps : RE
  | cls : (Char → Bool) → RE
  | cat : RE → RE → RE
  | alt : RE → RE → RE
  | star : Bool → RE → RE
  | rep : RE → Nat → Nat → RE
  | grp : RE → RE
  | look : RE → RE
  | bos : RE
  | bol : RE
  | eos : RE
  | eol : RE
  | wb : RE

inductive RFrame where
  | re : RE → RFrame
  | gopen : RFrame
  | gclose : RFrame

structure MSt where
  pos : Nat
  gs : Option Nat
  cap : Option (Nat × Nat)

def isWordAt (cs : List Char) (i : Nat) : Bool :=
  match cs.get? i with
  | some c => isWordChar c
  | none => false

def atWb (cs : List Char) (i : Nat) : Bool :=
  let left := if i = 0 then false else isWordAt cs (i - 1)
  left != isWordAt cs i

/-- One backtracking matcher step: match the stack of frames against `cs`
starting from state `st`, first success in Python preference order. -/
def reRun (cs : List Char) : Nat → List RFrame → MSt → Option MSt
  | 0, _, _ => none
  | _ + 1, [], st => some st
  | fuel + 1, fr :: k, st =>
    match fr with
    | .gopen => reRun cs fuel k ⟨st.pos, some st.pos, st.cap⟩
    | .gclose => reRun cs fuel k ⟨st.pos, st.gs, some (st.gs.getD 0, st.pos)⟩
    | .re r =>
      match r with
      | .eps => reRun cs fuel k st
      | .cls p =>
        match cs.get? st.pos with
        | some c => if p c then reRun cs fuel k ⟨st.pos + 1, st.gs, st.cap⟩ else none
        | none => none
      | .cat a b => reRun cs fuel (.re a :: .re b :: k) st
      | .alt a b =>
        match reRun cs fuel (.re a :: k) st with
        | some res => some res
        | none => reRun cs fuel (.re b :: k) st
      | .star g r =>
        if g then
          match reRun cs fuel (.re r :: .re (.star true r) :: k) st with
          | some res => some res
          | none => reRun cs fuel k st
        else
          match reRun cs fuel k st with
          | some res => some res
          | none => reRun cs fuel (.re r :: .re (.star false r) :: k) st
      | .rep r lo hi =>
        match lo, hi with
        | 0, 0 => reRun cs fuel k st
        | 0, h + 1 =>
          match reRun cs fuel (.re r :: .re (.rep r 0 h) :: k) st with
          | some res => some res
          | none => reRun cs fuel k st
        | l + 1, h => reRun cs fuel (.re r :: .re (.rep r l (h - 1)) :: k) st
      | .grp r => reRun cs fuel (.gopen :: .re r :: .gclose :: k) st
      | .look r =>
        match reRun cs fuel [.re r] st with
        | some _ => reRun cs fuel k st
        | none => none
      | .bos => if st.pos = 0 then reRun cs fuel k st else none
      | .bol =>
        if st.pos = 0 ∨ cs.get? (st.pos - 1) = some '\n' then reRun cs fuel k st else none
      | .eos =>
        if st.pos = cs.length ∨ (st.pos + 1 = cs.length ∧ cs.get? st.pos = some '\n') then
          reRun cs fuel k st
        else none
      | .eol =>
        if st.pos = cs.length ∨ cs.get? st.pos = some '\n' then reRun cs fuel k st else none
      | .wb => if atWb cs st.pos then reRun cs fuel k st else none

def reSize : RE → Nat
  | .eps | .bos | .bol | .eos | .eol | .wb => 1
  | .cls _ => 1
  | .cat a b => reSize a + reSize b + 1
  | .alt a b => reSize a + reSize b + 1
  | .star _ r => reSize r + 2
  | .rep r _ hi => (reSize r + 2) * (hi + 1) + 1
  | .grp r => reSize r + 3
  | .look r => reSize r + 2

def reFuel (r : RE) (cs : List Char) : Nat := (cs.length + 2) * (reSize r + 8)

/-- Try to match `r` at position `i` of `s` (Python's first alternative). -/
def matchEnd (r : RE) (s : String) (i : Nat) : Option MSt :=
  reRun s.data (reFuel r s.data) [.re r] ⟨i, none, none⟩

/-- `re.search`: leftmost position with a match. -/
def reSearch (r : RE) (s : String) : Option (Nat × MSt) :=
  (List.range (s.data.length + 1)).findSome? (fun i => (matchEnd r s i).map (fun st => (i, st)))

def reSearchB (r : RE) (s : String) : Bool := (reSearch r s).isSome

/-- `re.match`: anchored at position 0. -/
def reMatchB (r : RE) (s : String) : Bool := (matchEnd r s 0).isSome

/-- `m.group(0)` of a search result. -/
def reSearchStr (r : RE) (s : String) : Option String :=
  (reSearch r s).map (fun p => pySlice s p.1 p.2.pos)

/-- `m.group(1)` of a search result (patterns with one capturing group). -/
def reSearchGrp (r : RE) (s : String) : Option String :=
  (reSearch r s).bind (fun p => p.2.cap.map (fun q => pySlice s q.1 q.2))

def reSearchFrom (r : RE) (s : String) (i : Nat) : Option (Nat × MSt) :=
  (List.range (s.data.length + 1 - i)).findSome?
    (fun d => (matchEnd r s (i + d)).map (fun st => (i + d, st)))

def reFindAllAux (r : RE) (s : String) : Nat → Nat → List String
  | _, 0 => []
  | i, fuel + 1 =>
    match reSearchFrom r s i with
    | none => []
    | some (j, st) =>
      let m := match st.cap with
        | some q => pySlice s q.1 q.2
        | none => pySlice s j st.pos
      m :: reFindAllAux r s (if j < st.pos then st.pos else j + 1) fuel

/-- `re.findall`: non-overlapping matches left to right; group 1 when the
pattern has a capturing group, else the whole match. -/
def reFindAll (r : RE) (s : String) : List String :=
  reFindAllAux r s 0 (s.data.length + 1)

/-! ### Pattern constructors -/

def chr (c : Char) : RE := RE.cls (fun x => x = c)

def chrCI (c : Char) : RE := RE.cls (fun x => lowChar x = lowChar c)

def rcat (l : List RE) : RE := l.foldr RE.cat RE.eps

def rlit (s : String) : RE := rcat (s.data.map chr)

def rlitCI (s : String) : RE := rcat (s.data.map chrCI)

def ralts : List RE → RE
  | [] => RE.eps
  | [r] => r
  | r :: rest => RE.alt r (ralts rest)

def star0 (p : Char → Bool) : RE := RE.star true (RE.cls p)

def plus1 (p : Char → Bool) : RE := RE.cat (RE.cls p) (star0 p)

def ropt (r : RE) : RE := RE.alt r RE.eps

def rrep (p : Char → Bool) (lo hi : Nat) : RE := RE.rep (RE.cls p) lo hi

/-! ### Character classes used by the source patterns -/

def clsSpHashCol (c : Char) : Bool := isPySpace c ∨ c = '#' ∨ c = ':'

def clsColSp (c : Char) : Bool := isPySpace c ∨ c = ':'

def clsSpColDol (c : Char) : Bool := isPySpace c ∨ c = ':' ∨ c = '$'

/-- `[A-Z0-9\-\_]` under IGNORECASE. -/
def clsInvCI (c : Char) : Bool := isAlphaAZ c ∨ isDigit09 c ∨ c = '-' ∨ c = '_'

/-- `[A-Z0-9\-\_]` case-sensitive. -/
def clsInvUp (c : Char) : Bool := isUpperAZ c ∨ isDigit09 c ∨ c = '-' ∨ c = '_'

/-- `[A-Z0-9\-]` case-sensitive. -/
def clsInvUpND (c : Char) : Bool := isUpperAZ c ∨ isDigit09 c ∨ c = '-'

def clsDigCom (c : Char) : Bool := isDigit09 c ∨ c = ','

def clsDigComDot (c : Char) : Bool := isDigit09 c ∨ c = ',' ∨ c = '.'

def clsDigDot (c : Char) : Bool := isDigit09 c ∨ c = '.'

def clsSlashDash (c : Char) : Bool := c = '/' ∨ c = '-'

def clsDashDot (c : Char) : Bool := c = '-' ∨ c = '.'

def clsEmailLocal (c : Char) : Bool :=
  isAlphaAZ c ∨ isDigit09 c ∨ c = '.' ∨ c = '_' ∨ c = '%' ∨ c = '+' ∨ c = '-'

def clsEmailDom (c : Char) : Bool := isAlphaAZ c ∨ isDigit09 c ∨ c = '.' ∨ c = '-'

/-- `[A-Z|a-z]`: letters plus the literal pipe. -/
def clsTld (c : Char) : Bool := isAlphaAZ c ∨ c = '|'

/-- `[A-Za-z0-9\s,]`. -/
def clsAddr (c : Char) : Bool := isAlphaAZ c ∨ isDigit09 c ∨ isPySpace c ∨ c = ','

/-- `[\w\s]`. -/
def clsWordSp (c : Char) : Bool := isWordChar c ∨ isPySpace c

/-- `[A-Za-z\s]`. -/
def clsAlphaSp (c : Char) : Bool := isAlphaAZ c ∨ isPySpace c

/-- `[A-Za-z\s&]`. -/
def clsAlphaSpAmp (c : Char) : Bool := isAlphaAZ c ∨ isPySpace c ∨ c = '&'

/-- `[\w\-]`. -/
def clsWordDash (c : Char) : Bool := isWordChar c ∨ c = '-'

/-- `.` without DOTALL. -/
def clsDot (c : Char) : Bool := ¬ c = '\n'

/-! ### The `fallback_patterns` of `TransformerInvoiceProcessor` (findall, IGNORECASE) -/

def reInv1 : RE :=
  rcat [ralts [rlitCI "invoice", rlitCI "inv"], star0 clsSpHashCol, RE.grp (rrep clsInvCI 3 20)]

def reInv2 : RE :=
  rcat [ralts [rlitCI "number", rlitCI "no", rlit "#"], star0 clsColSp, RE.grp (rrep clsInvCI 3 20)]

def reInv3 : RE :=
  RE.grp (rcat [RE.wb, rrep isAlphaAZ 2 4, chr '-', rrep isDigit09 3 8, RE.wb])

/-- `([0-9,]+\.?\d{0,2})`. -/
def amtGrp02 : RE := RE.grp (rcat [plus1 clsDigCom, ropt (chr '.'), rrep isDigit09 0 2])

/-- `([0-9,]+\.?\d{2})`. -/
def amtGrp2 : RE := RE.grp (rcat [plus1 clsDigCom, ropt (chr '.'), rrep isDigit09 2 2])

def reAmt1 : RE :=
  rcat [ralts [rlitCI "total", rcat [rlitCI "amount", plus1 isPySpace, rlitCI "due"],
               rcat [rlitCI "grand", plus1 isPySpace, rlitCI "total"]],
        star0 clsSpColDol, amtGrp02]

def reAmt2 : RE := rcat [chr '$', amtGrp2]

def reAmt3 : RE := rcat [amtGrp2, RE.look (rcat [star0 isPySpace, RE.eos])]

/-- `\d{1,2}[\/\-]\d{1,2}[\/\-]\d{2,4}`. -/
def dateCore : RE :=
  rcat [rrep isDigit09 1 2, RE.cls clsSlashDash, rrep isDigit09 1 2, RE.cls clsSlashDash,
        rrep isDigit09 2 4]

def reDate1 : RE :=
  rcat [ralts [rlitCI "date", rcat [rlitCI "invoice", plus1 isPySpace, rlitCI "date"]],
        star0 clsColSp, RE.grp dateCore]

def reDate2 : RE := RE.grp dateCore

/-- `\b\w+\s+\d{1,2},?\s+\d{4}\b`. -/
def verbalDate : RE :=
  rcat [RE.wb, plus1 isWordChar, plus1 isPySpace, rrep isDigit09 1 2, ropt (chr ','),
        plus1 isPySpace, rrep isDigit09 4 4, RE.wb]

def reDate3 : RE := RE.grp verbalDate

def reDue1 : RE :=
  rcat [ralts [rlitCI "due", rcat [rlitCI "payment", plus1 isPySpace, rlitCI "due"]],
        star0 clsColSp, RE.grp dateCore]

def reDue2 : RE :=
  rcat [rlitCI "due", plus1 isPySpace, rlitCI "date", star0 clsColSp, RE.grp dateCore]

def enhancedFieldPatterns : List (String × List RE) :=
  [("invoice_number", [reInv1, reInv2, reInv3]),
   ("total_amount", [reAmt1, reAmt2, reAmt3]),
   ("invoice_date", [reDate1, reDate2, reDate3]),
   ("due_date", [reDue1, reDue2])]

/-! ### `PDFProcessor._fallback_extraction` patterns (findall, IGNORECASE) -/

def fbAmt1 : RE :=
  rcat [ralts [rlitCI "total", rcat [rlitCI "amount", plus1 isPySpace, rlitCI "due"]],
        star0 clsSpColDol, amtGrp02]

def fallbackFieldPatterns : List (String × List RE) :=
  [("invoice_number", [reInv1, reInv2]),
   ("total_amount", [fbAmt1, reAmt2]),
   ("invoice_date", [reDate1]),
   ("vendor_name", [])]

/-! ### `PDFProcessor._extract_additional_fields` patterns -/

def reEmail : RE :=
  rcat [RE.wb, plus1 clsEmailLocal, chr '@', plus1 clsEmailDom, chr '.',
        RE.cls clsTld, RE.cls clsTld, star0 clsTld, RE.wb]

def rePhone : RE :=
  rcat [RE.wb, rrep isDigit09 3 3, ropt (RE.cls clsDashDot), rrep isDigit09 3 3,
        ropt (RE.cls clsDashDot), rrep isDigit09 4 4, RE.wb]

def reAddr1 : RE :=
  rcat [RE.wb, plus1 isDigit09, plus1 isPySpace, plus1 clsAddr, plus1 isPySpace,
        RE.cls isAlphaAZ, RE.cls isAlphaAZ, plus1 isPySpace, rrep isDigit09 5 5, RE.wb]

def reAddr2 : RE :=
  rcat [plus1 isDigit09, plus1 isPySpace, plus1 clsWordSp,
        ralts [rlitCI "Street", rlitCI "St", rlitCI "Avenue", rlitCI "Ave", rlitCI "Road",
               rlitCI "Rd", rlitCI "Drive", rlitCI "Dr", rlitCI "Lane", rlitCI "Ln",
               rlitCI "Boulevard", rlitCI "Blvd"]]

/-! ### Validation and heuristic-confidence patterns -/

/-- `^\d{1,10}(,\d{3})*(\.\d{2})?$` (used with `re.match`). -/
def reValidAmt : RE :=
  rcat [RE.bos, rrep isDigit09 1 10, RE.star true (rcat [chr ',', rrep isDigit09 3 3]),
        ropt (rcat [chr '.', rrep isDigit09 2 2]), RE.eos]

/-- `^[A-Z]{2,4}\-?\d{3,8}$`. -/
def reHInv1 : RE :=
  rcat [RE.bos, rrep isUpperAZ 2 4, ropt (chr '-'), rrep isDigit09 3 8, RE.eos]

/-- `^[A-Z0-9\-]{5,}$`. -/
def reHInv2 : RE := rcat [RE.bos, rrep clsInvUpND 5 5, star0 clsInvUpND, RE.eos]

/-- `^\d{1,6}(,\d{3})*\.\d{2}$`. -/
def reHAmt1 : RE :=
  rcat [RE.bos, rrep isDigit09 1 6, RE.star true (rcat [chr ',', rrep isDigit09 3 3]),
        chr '.', rrep isDigit09 2 2, RE.eos]

/-- `^\d+\.?\d*$`. -/
def reHAmt2 : RE := rcat [RE.bos, plus1 isDigit09, ropt (chr '.'), star0 isDigit09, RE.eos]

/-- `^\d{1,2}[\/\-]\d{1,2}[\/\-]\d{4}$`. -/
def reHDate1 : RE :=
  rcat [RE.bos, rrep isDigit09 1 2, RE.cls clsSlashDash, rrep isDigit09 1 2,
        RE.cls clsSlashDash, rrep isDigit09 4 4, RE.eos]

def reDigit : RE := RE.cls isDigit09

/-- `[\d,]+\.?\d*` (NER amount check and QA amount post-processing). -/
def reNumTail : RE := rcat [plus1 clsDigCom, ropt (chr '.'), star0 isDigit09]

/-- `[A-Z0-9\-\_]{3,20}` (QA invoice-number post-processing, case-sensitive). -/
def reQaInv : RE := rrep clsInvUp 3 20

/-! ### `LightweightInvoiceProcessor` patterns (search, IGNORECASE | MULTILINE) -/

def lnV1 : RE :=
  rcat [ralts [rlitCI "from", rcat [rlitCI "bill", plus1 isPySpace, rlitCI "to"],
               rlitCI "vendor", rlitCI "company"],
        plus1 clsColSp, RE.grp (rrep clsAlphaSp 3 30)]

def lnV2 : RE :=
  rcat [RE.bol, RE.grp (rrep clsAlphaSpAmp 3 30),
        ralts [rcat [star0 isPySpace, chr '\n'], rcat [star0 isPySpace, rlitCI "address"]]]

def lnV3 : RE :=
  rcat [RE.grp (rcat [RE.cls isAlphaAZ, plus1 isAlphaAZ,
                      RE.star true (rcat [plus1 isPySpace, RE.cls isAlphaAZ, plus1 isAlphaAZ])]),
        star0 isPySpace, chr '\n']

def lnI1 : RE :=
  rcat [rlitCI "invoice", plus1 isPySpace,
        ralts [rlitCI "number", rlit "#", rcat [rlitCI "no", ropt (chr '.')]],
        star0 clsColSp, RE.grp (plus1 clsWordDash)]

def lnI2 : RE :=
  rcat [rlitCI "inv", ropt (chr '.'), star0 isPySpace, ropt (chr '#'), star0 isPySpace,
        star0 clsColSp, RE.grp (plus1 clsWordDash)]

def lnI3 : RE := rcat [rlit "#", star0 isPySpace, RE.grp (rcat [rlitCI "INV", plus1 clsWordDash])]

/-- `([0-9,]+\.?[0-9]*)`. -/
def lnAmtGrp : RE := RE.grp (rcat [plus1 clsDigCom, ropt (chr '.'), star0 isDigit09])

def lnA1 : RE :=
  rcat [rlitCI "total", star0 isPySpace, rlitCI "amoun", ropt (chrCI 't'), star0 isPySpace,
        ropt (rlitCI "due"), star0 clsColSp, ropt (chr '$'), lnAmtGrp]

def lnA2 : RE :=
  rcat [rlitCI "amount", star0 isPySpace, rlitCI "due", star0 clsColSp, ropt (chr '$'), lnAmtGrp]

def lnA3 : RE := rcat [rlitCI "total", star0 clsColSp, ropt (chr '$'), lnAmtGrp]

def lnA4 : RE :=
  rcat [chr '$', RE.grp (rcat [plus1 clsDigCom, chr '.', rrep isDigit09 2 2]),
        ralts [rcat [star0 isPySpace, RE.eol], rcat [star0 isPySpace, chr '\n']]]

def lnAd1 : RE :=
  rcat [rlitCI "address", star0 clsColSp, RE.grp (RE.star false (RE.cls clsDot)),
        ralts [chr '\n', RE.eol]]

def lnAd2 : RE :=
  rcat [RE.grp (rcat [plus1 isDigit09, plus1 isPySpace, plus1 clsAlphaSp,
                      ralts [rlitCI "street", rlitCI "st", rlitCI "avenue", rlitCI "ave",
                             rlitCI "road", rlitCI "rd", rlitCI "boulevard", rlitCI "blvd"],
                      RE.star false (RE.cls clsDot)]),
        ralts [chr '\n', RE.eol]]

def lnAd3 : RE :=
  RE.grp (rcat [plus1 clsAlphaSp, chr ',', star0 isPySpace, RE.cls isAlphaAZ,
                RE.cls isAlphaAZ, star0 isPySpace, rrep isDigit09 5 5])

def lightweightPatterns : List (String × List (RE × ℚ)) :=
  [("vendor_name", [(lnV1, 8/10), (lnV2, 7/10), (lnV3, 6/10)]),
   ("invoice_number", [(lnI1, 9/10), (lnI2, 8/10), (lnI3, 9/10)]),
   ("total_amount", [(lnA1, 9/10), (lnA2, 8/10), (lnA3, 7/10), (lnA4, 6/10)]),
   ("vendor_address", [(lnAd1, 8/10), (lnAd2, 7/10), (lnAd3, 9/10)])]

/-- The `confidence_modifiers` table of `_calculate_confidence`
(patterns searched case-sensitively on the candidate value, paired with the
per-field boost). -/
def cmInv1 : RE := rlit "INV"

def cmInv2 : RE := rrep isDigit09 4 4

def cmInv3 : RE := rlit "-"

def cmAmt1 : RE := rcat [chr '.', rrep isDigit09 2 2, RE.eos]

def cmAmt2 : RE := rcat [RE.bos, plus1 clsDigCom]

def cmName1 : RE := rcat [RE.bos, RE.cls isUpperAZ]

def cmName2 : RE := rcat [rrep isLowerAZ 3 3, star0 isLowerAZ]

def confidenceModifiers (fieldName : String) : List RE × ℚ :=
  if fieldName = "invoice_number" then ([cmInv1, cmInv2, cmInv3], 1/10)
  else if fieldName = "total_amount" then ([cmAmt1, cmAmt2], 15/100)
  else if fieldName = "vendor_name" then ([cmName1, cmName2], 5/100)
  else ([], 0)

/-! ### Python dicts as insertion-ordered association lists -/

def dget {α : Type} : List (String × α) → String → Option α
  | [], _ => none
  | p :: rest, k => if p.1 = k then some p.2 else dget rest k

/-- `d[k] = v`: update in place if present, else append. -/
def dset {α : Type} : List (String × α) → String → α → List (String × α)
  | [], k, v => [(k, v)]
  | p :: rest, k, v => if p.1 = k then (k, v) :: rest else p :: dset rest k v

/-- `d.update(add)` (keys of `add` written in order). -/
def dupdate {α : Type} (d add : List (String × α)) : List (String × α) :=
  add.foldl (fun acc p => dset acc p.1 p.2) d

abbrev Dict := List (String × String)

abbrev CDict := List (String × ℚ)

/-! ### `lightweight_ai.py` -/

/-- The per-field best-candidate loop shared by Tier-B
(`extract_with_lightweight_ai`) and Tier-C's regex pass
(`_extract_with_enhanced_regex`): `best = None; best_confidence = 0`,
replaced only on strictly greater confidence. -/
def selStep (acc : Option String × ℚ) (cand : Option (String × ℚ)) : Option String × ℚ :=
  match cand with
  | none => acc
  | some (v, c) => if c > acc.2 then (some v, c) else acc

def selectBest (cands : List (Option (String × ℚ))) : Option String × ℚ :=
  cands.foldl selStep (none, 0)

/-- `LightweightInvoiceProcessor._calculate_confidence`. -/
def calculateConfidence (fieldName value fullText : String) (baseConfidence : ℚ) : ℚ :=
  let mods := confidenceModifiers fieldName
  let conf := mods.1.foldl (fun acc pat => if reSearchB pat value then acc + mods.2 else acc)
    baseConfidence
  let conf :=
    if pyLen (pyStrip value) < 2 then conf * (1/2)
    else if pyLen (pyStrip value) > 100 then conf * (7/10)
    else conf
  pymin conf 1

/-- `LightweightInvoiceProcessor._clean_extracted_value`. -/
def cleanExtractedValue (fieldName value : String) : String :=
  let value := pyCollapseWs (pyStrip value)
  if fieldName = "total_amount" then
    let value := pyKeep value clsDigDot
    if ¬ pyContains value "." ∧ pyLen value > 2 then
      pySlice value 0 (pyLen value - 2) ++ "." ++ String.mk (value.data.drop (pyLen value - 2))
    else value
  else if fieldName = "vendor_name" then
    joinSpace ((pySplitWs value).map pyCapitalize)
  else if fieldName = "invoice_number" then
    pyKeep (pyUpper value) (fun c => ¬ isPySpace c)
  else value

/-- Python `round(x, 2)` (modelled as round-half-up on exact rationals; the
source only rounds for display and no claim depends on the tie behaviour). -/
def round2 (q : ℚ) : ℚ := (Int.floor (q * 100 + 1/2) : ℚ) / 100

structure ExtractOutput where
  extracted_fields : Dict
  confidence_scores : CDict

/-- `LightweightInvoiceProcessor.extract_with_lightweight_ai` (Tier-B). -/
def extractWithLightweightAi (text : String) : ExtractOutput :=
  let cleanText := pyCollapseWs (pyStrip (pyLower text))
  let acc := lightweightPatterns.foldl
    (fun (acc : Dict × CDict) fp =>
      let cands := fp.2.map (fun pb =>
        ((reSearchGrp pb.1 cleanText).map (fun g =>
          let value := pyStrip g
          (value, calculateConfidence fp.1 value text pb.2))))
      match selectBest cands with
      | (some v, c) =>
        if v = "" then acc
        else (dset acc.1 fp.1 (cleanExtractedValue fp.1 v), dset acc.2 fp.1 (round2 c))
      | (none, _) => acc)
    ([], [])
  ⟨acc.1, acc.2⟩

/-! ### `transformer_ai.py` -/

/-- `TransformerInvoiceProcessor._calculate_context_confidence`. -/
def contextKeywords (fieldType : String) : Option (List String) :=
  if fieldType = "invoice_number" then some ["invoice", "number", "inv", "#"]
  else if fieldType = "total_amount" then some ["total", "amount", "due", "$", "sum"]
  else if fieldType = "invoice_date" then some ["date", "invoice", "issued"]
  else if fieldType = "due_date" then some ["due", "payment", "deadline"]
  else if fieldType = "vendor_name" then some ["from", "company", "vendor"]
  else none

def calculateContextConfidence (fieldType value text : String) : ℚ :=
  match pyFind (pyLower text) (pyLower value) with
  | none => 1/2
  | some valuePos =>
    let start := valuePos - 50
    let stop := pyminN (pyLen text) (valuePos + pyLen value + 50)
    let context := pyLower (pySlice text start stop)
    match contextKeywords fieldType with
    | some kws =>
      let keywordCount := (kws.filter (fun kw => pyContains context kw)).length
      pymin 1 (1/2 + (keywordCount : ℚ) * (2/10))
    | none => 1/2

/-- The candidate each pattern of a Tier-C field contributes:
first `findall` match, confidence `((len - i)/len + context)/2`. -/
def tierCCandidates (fieldType : String) (pats : List RE) (text : String) :
    List (Option (String × ℚ)) :=
  pats.enum.map (fun ip =>
    match (reFindAll ip.2 text).head? with
    | some m =>
      let patternConfidence : ℚ := ((pats.length - ip.1 : ℕ) : ℚ) / (pats.length : ℚ)
      let contextConfidence := calculateContextConfidence fieldType m text
      some (m, (patternConfidence + contextConfidence) / 2)
    | none => none)

/-- The per-field result of Tier-C's loop (`if best_match:` keeps only a
truthy value). -/
def tierCField (text : String) (fp : String × List RE) : Option (String × String × ℚ) :=
  match selectBest (tierCCandidates fp.1 fp.2 text) with
  | (some v, c) => if v = "" then none else some (fp.1, v, c)
  | (none, _) => none

/-- `TransformerInvoiceProcessor._extract_with_enhanced_regex` (Tier-C). -/
def extractWithEnhancedRegex (text : String) : List (String × String × ℚ) :=
  enhancedFieldPatterns.filterMap (tierCField text)

/-- An entity produced by the external NER pipeline:
`word`, `entity_group`, `score`. -/
structure Entity where
  word : String
  egroup : String
  score : ℚ

/-- The entity-to-field mapping loop of
`TransformerInvoiceProcessor._extract_with_ner`. -/
def nerStep (acc : Dict × CDict) (e : Entity) : Dict × CDict :=
  if e.egroup = "ORG" ∨ e.egroup = "ORGANIZATION" then
    if dget acc.1 "vendor_name" = none ∨ e.score > (dget acc.2 "vendor_name").getD 0 then
      (dset acc.1 "vendor_name" e.word, dset acc.2 "vendor_name" e.score)
    else acc
  else if e.egroup = "MONEY" ∨ e.egroup = "CARDINAL" then
    if reSearchB reNumTail e.word then
      if dget acc.1 "total_amount" = none ∨ e.score > (dget acc.2 "total_amount").getD 0 then
        (dset acc.1 "total_amount" (pyKeep e.word clsDigComDot),
         dset acc.2 "total_amount" (e.score * (8/10)))
      else acc
    else acc
  else if e.egroup = "DATE" then
    if dget acc.1 "invoice_date" = none ∨ e.score > (dget acc.2 "invoice_date").getD 0 then
      (dset acc.1 "invoice_date" e.word, dset acc.2 "invoice_date" e.score)
    else acc
  else acc

def extractWithNer (entities : List Entity) : Dict × CDict :=
  entities.foldl nerStep ([], [])

/-- `TransformerInvoiceProcessor._post_process_qa_answer`. -/
def postProcessQaAnswer (fieldType answer : String) : Option String :=
  let answer := pyStrip answer
  if fieldType = "invoice_number" then reSearchStr reQaInv (pyUpper answer)
  else if fieldType = "total_amount" then
    reSearchStr reNumTail (String.mk (answer.data.filter (fun c => ¬ c = ',')))
  else if fieldType = "invoice_date" ∨ fieldType = "due_date" then
    if reSearchB dateCore answer then some answer
    else if reSearchB verbalDate answer then some answer
    else none
  else if fieldType = "vendor_name" ∨ fieldType = "vendor_address" then
    if pyLen answer > 2 ∧ pyLen answer < 100 then some answer else none
  else if pyLen answer > 0 then some answer else none

def qaQuestionFields : List String :=
  ["invoice_number", "total_amount", "invoice_date", "due_date", "vendor_name",
   "vendor_address"]

/-- `TransformerInvoiceProcessor._extract_with_qa`, parameterised by the raw
QA pipeline output `model : question field ↦ (answer, score)`; `none` models a
field whose pipeline call failed or returned nothing usable. -/
def extractWithQa (model : String → Option (String × ℚ)) : List (String × String × ℚ) :=
  qaQuestionFields.filterMap (fun f =>
    match model f with
    | none => none
    | some (ans, score) =>
      if score > 1/10 ∧ pyLen (pyStrip ans) > 0 then
        (postProcessQaAnswer f ans).map (fun v => (f, v, score))
      else none)

/-- One merge-loop step of `extract_with_transformers`: when `cond` holds of
the current entry for the field, both the field and the confidence are
overwritten. -/
def mergeStep (cond : Option String → Option ℚ → ℚ → Bool) (acc : Dict × CDict)
    (r : String × String × ℚ) : Dict × CDict :=
  if cond (dget acc.1 r.1) (dget acc.2 r.1) r.2.2 then
    (dset acc.1 r.1 r.2.1, dset acc.2 r.1 r.2.2)
  else acc

/-- QA merge condition: `field not in extracted_fields or
data['confidence'] > confidence_scores.get(field, 0)`. -/
def qaCond (f : Option String) (c : Option ℚ) (q : ℚ) : Bool :=
  f = none ∨ q > c.getD 0

/-- Regex merge condition: `field not in extracted_fields`. -/
def regexCond (f : Option String) (_c : Option ℚ) (_q : ℚ) : Bool := f = none

def qaStep : Dict × CDict → String × String × ℚ → Dict × CDict := mergeStep qaCond

def regexStep : Dict × CDict → String × String × ℚ → Dict × CDict := mergeStep regexCond

/-- `TransformerInvoiceProcessor._validate_and_enhance_fields`. -/
def validateStep (text : String) (validated : Dict) (p : String × String) : Dict :=
  if p.1 = "total_amount" then
    if reMatchB reValidAmt (pyKeep p.2 clsDigComDot) then
      dset validated p.1 (pyKeep p.2 clsDigComDot)
    else validated
  else if p.1 = "invoice_date" ∨ p.1 = "due_date" then
    if reSearchB dateCore p.2 then dset validated p.1 p.2 else validated
  else if p.1 = "invoice_number" then
    if pyLen (pyKeep p.2 clsWordDash) ≥ 3 then dset validated p.1 (pyKeep p.2 clsWordDash)
    else validated
  else
    if pyLen (pyStrip p.2) > 0 then dset validated p.1 (pyStrip p.2) else validated

def validateAndEnhanceFields (fields : Dict) (text : String) : Dict :=
  fields.foldl (validateStep text) []

/-- `TransformerInvoiceProcessor.extract_with_transformers` (heavy path),
parameterised by the external pipelines: `ner = none` / `qa = none` model an
unavailable pipeline (`self.ner_pipeline is None`), `some` carries the raw
model output. -/
def extractWithTransformers (ner : Option (List Entity))
    (qa : Option (String → Option (String × ℚ))) (text : String) : ExtractOutput :=
  let acc : Dict × CDict :=
    match ner with
    | some entities => extractWithNer entities
    | none => ([], [])
  let acc :=
    match qa with
    | some model => (extractWithQa model).foldl qaStep acc
    | none => acc
  let acc := (extractWithEnhancedRegex text).foldl regexStep acc
  ⟨validateAndEnhanceFields acc.1 text, acc.2⟩

/-! ### `pdf_processor.py` -/

/-- First pattern of the list with a `findall` match; its first match. -/
def firstPatternMatch : List RE → String → Option String
  | [], _ => none
  | p :: rest, text =>
    match (reFindAll p text).head? with
    | some m => some m
    | none => firstPatternMatch rest text

/-- The vendor-name line heuristic of `_fallback_extraction`. -/
def vendorFromLines (text : String) : Option String :=
  (((pySplitOn '\n' text).take 10).map pyStrip).find? (fun line =>
    pyLen line > 3 ∧ pyLen line < 50 ∧ ¬ reSearchB reDigit line ∧
      ¬ pyContains (pyLower line) "invoice")

/-- `PDFProcessor._fallback_extraction`. -/
def fallbackExtraction (text : String) : Dict :=
  let fields := fallbackFieldPatterns.filterMap (fun fp =>
    (firstPatternMatch fp.2 text).map (fun v => (fp.1, v)))
  match dget fields "vendor_name" with
  | some _ => fields
  | none =>
    match vendorFromLines text with
    | some line => dset fields "vendor_name" line
    | none => fields

/-- `PDFProcessor._extract_additional_fields`. -/
def extractAdditionalFields (text : String) : Dict :=
  let fields : Dict := []
  let fields :=
    match (reFindAll reEmail text).head? with
    | some e => dset fields "vendor_email" e
    | none => fields
  let fields :=
    match (reFindAll rePhone text).head? with
    | some p => dset fields "vendor_phone" p
    | none => fields
  match firstPatternMatch [reAddr1, reAddr2] text with
  | some a => dset fields "vendor_address" a
  | none => fields

/-- `PDFProcessor.extract_invoice_fields`, parameterised by the outcome of
`self.ai_processor.extract_with_transformers(text)`: `some fields` is a normal
return (its `extracted_fields`), `none` models the strategy raising, which the
source catches and answers with `_fallback_extraction`. -/
def extractInvoiceFields (aiOutcome : Option Dict) (text : String) : Dict :=
  match aiOutcome with
  | some aiFields => dupdate aiFields (extractAdditionalFields text)
  | none => fallbackExtraction text

/-- `PDFProcessor._calculate_heuristic_confidence`. -/
def calculateHeuristicConfidence (fieldName fieldValue text : String) : ℚ :=
  if fieldName = "invoice_number" then
    if reMatchB reHInv1 fieldValue then 95/100
    else if reMatchB reHInv2 fieldValue then 85/100
    else 70/100
  else if fieldName = "total_amount" then
    if reMatchB reHAmt1 fieldValue then 90/100
    else if reMatchB reHAmt2 fieldValue then 80/100
    else 60/100
  else if fieldName = "invoice_date" ∨ fieldName = "due_date" then
    if reMatchB reHDate1 fieldValue then 88/100
    else if reSearchB verbalDate fieldValue then 85/100
    else 70/100
  else if fieldName = "vendor_name" then
    if pyLen fieldValue > 15 ∧ ¬ reSearchB reDigit fieldValue then 85/100
    else if pyLen fieldValue > 5 then 75/100
    else 60/100
  else if fieldName = "vendor_email" ∨ fieldName = "vendor_phone" then 90/100
  else 75/100

/-- One step of the `get_confidence_scores` loop: the strategy's confidence
when the re-run has the field, else the heuristic. -/
def confStep (aiConfidence : CDict) (text : String) (scores : CDict) (p : String × String) :
    CDict :=
  match dget aiConfidence p.1 with
  | some s => dset scores p.1 s
  | none => dset scores p.1 (calculateHeuristicConfidence p.1 p.2 text)

/-- `PDFProcessor.get_confidence_scores` (success path), parameterised by the
`confidence_scores` returned by the strategy re-run. -/
def getConfidenceScores (aiConfidence : CDict) (fields : Dict) (text : String) : CDict :=
  fields.foldl (confStep aiConfidence text) []

/-- Both dicts of a field/confidence pair have entries for the same keys. -/
def keySync (acc : Dict × CDict) : Prop :=
  ∀ k, (dget acc.1 k).isSome = (dget acc.2 k).isSome

/-! ### Association-list lemmas -/

theorem dget_dset {α : Type} (d : List (String × α)) (k j : String) (v : α) :
    dget (dset d k v) j = if j = k then some v else dget d j := by
  induction d with
  | nil =>
    by_cases h : j = k
    · subst h; simp [dset, dget]
    · simp [dset, dget, h, Ne.symm h]
  | cons p rest ih =>
    by_cases hpk : p.1 = k
    · by_cases hjk : j = k
      · subst hjk; simp [dset, dget, hpk]
      · simp [dset, dget, hpk, hjk, Ne.symm hjk]
    · by_cases hpj : p.1 = j
      · have hjk : ¬ j = k := fun h => hpk (hpj.trans h)
        simp [dset, dget, hpk, hpj, hjk]
      · simp [dset, dget, hpk, hpj, ih]

theorem dget_mem_isSome {α : Type} (d : List (String × α)) (k : String)
    (h : k ∈ d.map (fun p => p.1)) : (dget d k).isSome = true := by
  induction d with
  | nil => simp at h
  | cons p rest ih =>
    rcases List.mem_cons.mp h with h1 | h2
    · simp [dget, h1.symm]
    · by_cases hp : p.1 = k
      · simp [dget, hp]
      · simp [dget, hp, ih h2]

theorem isSome_dget_dset_cases {α : Type} (d : List (String × α)) (key k : String) (v : α)
    (h : (dget (dset d key v) k).isSome = true) :
    (dget d k).isSome = true ∨ k = key := by
  rw [dget_dset] at h
  by_cases hk : k = key
  · exact Or.inr hk
  · rw [if_neg hk] at h; exact Or.inl h

theorem dget_eq_find {α : Type} (d : List (String × α)) (k : String) :
    dget d k = (d.find? (fun p => p.1 == k)).map (fun p => p.2) := by
  induction d with
  | nil => simp [dget]
  | cons p rest ih =>
    by_cases hp : p.1 = k
    · rw [List.find?_cons_of_pos _ (by simp [hp])]; simp [dget, hp]
    · rw [List.find?_cons_of_neg _ (by simp [hp])]; simp [dget, hp, ih]

/-! ### Merge-fold lemmas for `extract_with_transformers` -/

theorem mergeStep_ne (cond : Option String → Option ℚ → ℚ → Bool) (acc : Dict × CDict)
    (r : String × String × ℚ) (k : String) (h : ¬ r.1 = k) :
    dget (mergeStep cond acc r).1 k = dget acc.1 k ∧
      dget (mergeStep cond acc r).2 k = dget acc.2 k := by
  unfold mergeStep
  have hk : ¬ k = r.1 := fun hh => h hh.symm
  split
  · constructor <;> simp [dget_dset, hk]
  · exact ⟨rfl, rfl⟩

theorem mergeFold_ne (cond : Option String → Option ℚ → ℚ → Bool)
    (l : List (String × String × ℚ)) (acc : Dict × CDict) (k : String)
    (h : ∀ r ∈ l, ¬ r.1 = k) :
    dget (l.foldl (mergeStep cond) acc).1 k = dget acc.1 k ∧
      dget (l.foldl (mergeStep cond) acc).2 k = dget acc.2 k := by
  induction l generalizing acc with
  | nil => exact ⟨rfl, rfl⟩
  | cons r rest ih =>
    have h0 := h r (List.mem_cons_self r rest)
    have hr := mergeStep_ne cond acc r k h0
    have hrest := ih (mergeStep cond acc r) (fun x hx => h x (List.mem_cons_of_mem r hx))
    exact ⟨hrest.1.trans hr.1, hrest.2.trans hr.2⟩

theorem mergeFold_find (cond : Option String → Option ℚ → ℚ → Bool)
    (l : List (String × String × ℚ)) (acc : Dict × CDict) (k : String)
    (hnd : (l.map (fun r => r.1)).Nodup) :
    (dget (l.foldl (mergeStep cond) acc).1 k, dget (l.foldl (mergeStep cond) acc).2 k) =
      match l.find? (fun r => r.1 == k) with
      | some r =>
        if cond (dget acc.1 k) (dget acc.2 k) r.2.2 then (some r.2.1, some r.2.2)
        else (dget acc.1 k, dget acc.2 k)
      | none => (dget acc.1 k, dget acc.2 k) := by
  induction l generalizing acc with
  | nil => simp
  | cons r rest ih =>
    have hnd2 := (List.nodup_cons.mp hnd).2
    by_cases h0 : r.1 = k
    · have hfind : (r :: rest).find? (fun x => x.1 == k) = some r :=
        List.find?_cons_of_pos _ (by simp [h0])
      rw [List.foldl_cons, hfind]
      have hnotin : ∀ x ∈ rest, ¬ x.1 = k := by
        intro x hx hxk
        apply (List.nodup_cons.mp hnd).1
        have hmem : x.1 ∈ List.map (fun p => p.1) rest := List.mem_map_of_mem _ hx
        rwa [hxk, ← h0] at hmem
      have hrest := mergeFold_ne cond rest (mergeStep cond acc r) k hnotin
      rw [Prod.mk.injEq]
      refine ⟨hrest.1.trans ?_, hrest.2.trans ?_⟩ <;>
        · unfold mergeStep
          rw [h0]
          split <;> simp [dget_dset]
    · have hfind : (r :: rest).find? (fun x => x.1 == k) = rest.find? (fun x => x.1 == k) :=
        List.find?_cons_of_neg _ (by simp [h0])
      have hstep := mergeStep_ne cond acc r k h0
      rw [List.foldl_cons, hfind, ih (mergeStep cond acc r) hnd2, hstep.1, hstep.2]

theorem mergeFold_find_fst (cond : Option String → Option ℚ → ℚ → Bool)
    (l : List (String × String × ℚ)) (acc : Dict × CDict) (k : String)
    (hnd : (l.map (fun r => r.1)).Nodup) :
    dget (l.foldl (mergeStep cond) acc).1 k =
      match l.find? (fun r => r.1 == k) with
      | some r =>
        if cond (dget acc.1 k) (dget acc.2 k) r.2.2 then some r.2.1 else dget acc.1 k
      | none => dget acc.1 k := by
  have h := mergeFold_find cond l acc k hnd
  cases hf : l.find? (fun r => r.1 == k) with
  | none => rw [hf] at h; exact congrArg Prod.fst h
  | some r =>
    rw [hf] at h
    dsimp only at h ⊢
    by_cases hc : cond (dget acc.1 k) (dget acc.2 k) r.2.2 = true
    · rw [if_pos hc] at h ⊢; exact congrArg Prod.fst h
    · rw [if_neg hc] at h ⊢; exact congrArg Prod.fst h

theorem mergeFold_find_snd (cond : Option String → Option ℚ → ℚ → Bool)
    (l : List (String × String × ℚ)) (acc : Dict × CDict) (k : String)
    (hnd : (l.map (fun r => r.1)).Nodup) :
    dget (l.foldl (mergeStep cond) acc).2 k =
      match l.find? (fun r => r.1 == k) with
      | some r =>
        if cond (dget acc.1 k) (dget acc.2 k) r.2.2 then some r.2.2 else dget acc.2 k
      | none => dget acc.2 k := by
  have h := mergeFold_find cond l acc k hnd
  cases hf : l.find? (fun r => r.1 == k) with
  | none => rw [hf] at h; exact congrArg Prod.snd h
  | some r =>
    rw [hf] at h
    dsimp only at h ⊢
    by_cases hc : cond (dget acc.1 k) (dget acc.2 k) r.2.2 = true
    · rw [if_pos hc] at h ⊢; exact congrArg Prod.snd h
    · rw [if_neg hc] at h ⊢; exact congrArg Prod.snd h

theorem keySync_dset (acc : Dict × CDict) (key : String) (v : String) (q : ℚ)
    (h : keySync acc) : keySync (dset acc.1 key v, dset acc.2 key q) := by
  intro k
  simp only [dget_dset]
  by_cases hk : k = key <;> simp [hk, h k]

theorem keySync_mergeStep (cond : Option String → Option ℚ → ℚ → Bool) (acc : Dict × CDict)
    (r : String × String × ℚ) (h : keySync acc) : keySync (mergeStep cond acc r) := by
  unfold mergeStep
  split
  · exact keySync_dset acc r.1 r.2.1 r.2.2 h
  · exact h

theorem keySync_mergeFold (cond : Option String → Option ℚ → ℚ → Bool)
    (l : List (String × String × ℚ)) (acc : Dict × CDict) (h : keySync acc) :
    keySync (l.foldl (mergeStep cond) acc) := by
  induction l generalizing acc with
  | nil => exact h
  | cons r rest ih => exact ih (mergeStep cond acc r) (keySync_mergeStep cond acc r h)

theorem keySync_nerStep (acc : Dict × CDict) (e : Entity) (h : keySync acc) :
    keySync (nerStep acc e) := by
  unfold nerStep
  split_ifs <;> first
    | exact keySync_dset acc _ _ _ h
    | exact h

theorem keySync_ner (entities : List Entity) : keySync (extractWithNer entities) := by
  unfold extractWithNer
  have main : ∀ (l : List Entity) (acc : Dict × CDict), keySync acc →
      keySync (l.foldl nerStep acc) := by
    intro l
    induction l with
    | nil => exact fun acc h => h
    | cons e rest ih => exact fun acc h => ih (nerStep acc e) (keySync_nerStep acc e h)
  exact main entities ([], []) (fun k => rfl)

theorem validateStep_mem (text : String) (acc : Dict) (p : String × String) (k : String)
    (h : (dget (validateStep text acc p) k).isSome = true) :
    (dget acc k).isSome = true ∨ k = p.1 := by
  unfold validateStep at h
  split_ifs at h <;> first
    | exact isSome_dget_dset_cases _ _ _ _ h
    | exact Or.inl h

theorem validateFold_mem (fields : Dict) (text : String) (acc : Dict) (k : String)
    (h : (dget (fields.foldl (validateStep text) acc) k).isSome = true) :
    (dget acc k).isSome = true ∨ k ∈ fields.map (fun p => p.1) := by
  induction fields generalizing acc with
  | nil => exact Or.inl h
  | cons p rest ih =>
    rcases ih (validateStep text acc p) h with h1 | h2
    · rcases validateStep_mem text acc p k h1 with h3 | h4
      · exact Or.inl h3
      · exact Or.inr (by simp [h4])
    · exact Or.inr (by simp [h2])

/-! ### Keys of `filterMap`-produced results -/

theorem keys_filterMap {α β : Type} (keyf : α → String) (g : α → Option (String × β))
    (h : ∀ a r, g a = some r → r.1 = keyf a) (l : List α) :
    ((l.filterMap g).map (fun r => r.1)).Sublist (l.map keyf) := by
  induction l with
  | nil => simp
  | cons a rest ih =>
    cases hg : g a with
    | none =>
      rw [List.filterMap_cons, hg, List.map_cons]
      exact ih.cons (keyf a)
    | some r =>
      rw [List.filterMap_cons, hg, List.map_cons, List.map_cons, h a r hg]
      exact ih.cons₂ (keyf a)

theorem tierCField_key (text : String) (fp : String × List RE) (r : String × String × ℚ)
    (h : tierCField text fp = some r) : r.1 = fp.1 := by
  unfold tierCField at h
  split at h
  · split at h
    · exact absurd h (by simp)
    · rw [Option.some_inj] at h; rw [← h]
  · exact absurd h (by simp)

theorem regex_keys_nodup (text : String) :
    ((extractWithEnhancedRegex text).map (fun r => r.1)).Nodup := by
  have hsub := keys_filterMap (fun fp => fp.1) (tierCField text)
    (tierCField_key text) enhancedFieldPatterns
  exact List.Nodup.sublist hsub (by decide)

theorem extractWithQa_key (model : String → Option (String × ℚ)) (f : String)
    (r : String × String × ℚ)
    (h : (match model f with
          | none => none
          | some (ans, score) =>
            if score > 1/10 ∧ pyLen (pyStrip ans) > 0 then
              (postProcessQaAnswer f ans).map (fun v => (f, v, score))
            else none) = some r) : r.1 = f := by
  cases hm : model f with
  | none => rw [hm] at h; exact absurd h (by simp)
  | some p =>
    obtain ⟨ans, score⟩ := p
    rw [hm] at h
    dsimp only at h
    split at h
    · cases hpp : postProcessQaAnswer f ans with
      | none => rw [hpp] at h; exact absurd h (by simp)
      | some v =>
        rw [hpp] at h
        simp only [Option.map_some', Option.some_inj] at h
        rw [← h]
    · exact absurd h (by simp)

theorem qa_keys_nodup (model : String → Option (String × ℚ)) :
    ((extractWithQa model).map (fun r => r.1)).Nodup := by
  unfold extractWithQa
  have hsub := keys_filterMap (fun s => s)
    (fun f =>
      match model f with
      | none => none
      | some (ans, score) =>
        if score > 1/10 ∧ pyLen (pyStrip ans) > 0 then
          (postProcessQaAnswer f ans).map (fun v => (f, v, score))
        else none)
    (extractWithQa_key model) qaQuestionFields
  rw [List.map_id'] at hsub
  exact List.Nodup.sublist hsub (by decide)

/-! ### Best-candidate selection lemmas -/

theorem selFold_le (l : List (Option (String × ℚ))) (acc : Option String × ℚ)
    (h : ∀ x ∈ l, ∀ p : String × ℚ, x = some p → p.2 ≤ acc.2) :
    l.foldl selStep acc = acc := by
  induction l with
  | nil => rfl
  | cons x rest ih =>
    have hx : selStep acc x = acc := by
      cases x with
      | none => rfl
      | some p =>
        have := h (some p) (List.mem_cons_self _ _) p rfl
        simp [selStep, not_lt.mpr this]
    rw [List.foldl_cons, hx]
    exact ih (fun y hy => h y (List.mem_cons_of_mem _ hy))

theorem selFold_lt (l : List (Option (String × ℚ))) (acc : Option String × ℚ) (c : ℚ)
    (hacc : acc.2 < c) (h : ∀ x ∈ l, ∀ p : String × ℚ, x = some p → p.2 < c) :
    (l.foldl selStep acc).2 < c := by
  induction l generalizing acc with
  | nil => exact hacc
  | cons x rest ih =>
    rw [List.foldl_cons]
    refine ih (selStep acc x) ?_ (fun y hy => h y (List.mem_cons_of_mem _ hy))
    cases x with
    | none => exact hacc
    | some p =>
      obtain ⟨v, cc⟩ := p
      have hp := h (some (v, cc)) (List.mem_cons_self _ _) (v, cc) rfl
      simp only [selStep]
      split
      · exact hp
      · exact hacc

/-! ### Fixed-boost fold (Tier-B confidence modifiers) -/

theorem foldl_boost (l : List RE) (q : RE → Bool) (b β : ℚ) :
    l.foldl (fun acc pat => if q pat then acc + β else acc) b = b + β * (l.countP q : ℕ) := by
  induction l generalizing b with
  | nil => simp
  | cons r rest ih =>
    by_cases h : q r <;>
      simp [List.countP_cons, h, ih] <;> push_cast <;> ring

/-! ### `get_confidence_scores` fold lemmas -/

theorem confStep_ne (aiConf : CDict) (text : String) (scores : CDict) (p : String × String)
    (k : String) (h : ¬ p.1 = k) :
    dget (confStep aiConf text scores p) k = dget scores k := by
  have hk : ¬ k = p.1 := fun hh => h hh.symm
  unfold confStep
  split <;> simp [dget_dset, hk]

theorem confFold_ne (aiConf : CDict) (text : String) (fields : Dict) (acc : CDict)
    (k : String) (h : ∀ p ∈ fields, ¬ p.1 = k) :
    dget (fields.foldl (confStep aiConf text) acc) k = dget acc k := by
  induction fields generalizing acc with
  | nil => rfl
  | cons p rest ih =>
    rw [List.foldl_cons]
    exact (ih (confStep aiConf text acc p) (fun x hx => h x (List.mem_cons_of_mem p hx))).trans
      (confStep_ne aiConf text acc p k (h p (List.mem_cons_self p rest)))

theorem confFold_dget (aiConf : CDict) (text : String) (fields : Dict) (acc : CDict)
    (k : String) (hnd : (fields.map (fun p => p.1)).Nodup) :
    dget (fields.foldl (confStep aiConf text) acc) k =
      match fields.find? (fun p => p.1 == k) with
      | some p =>
        some (match dget aiConf k with
              | some s => s
              | none => calculateHeuristicConfidence k p.2 text)
      | none => dget acc k := by
  induction fields generalizing acc with
  | nil => simp
  | cons p rest ih =>
    have hnd2 := (List.nodup_cons.mp hnd).2
    by_cases h0 : p.1 = k
    · have hfind : (p :: rest).find? (fun x => x.1 == k) = some p :=
        List.find?_cons_of_pos _ (by simp [h0])
      rw [List.foldl_cons, hfind]
      have hnotin : ∀ x ∈ rest, ¬ x.1 = k := by
        intro x hx hxk
        apply (List.nodup_cons.mp hnd).1
        have hmem : x.1 ∈ List.map (fun q => q.1) rest := List.mem_map_of_mem _ hx
        rwa [hxk, ← h0] at hmem
      rw [confFold_ne aiConf text rest (confStep aiConf text acc p) k hnotin]
      unfold confStep
      rw [h0]
      split <;> rename_i heq <;> simp [dget_dset, heq]
    · have hfind : (p :: rest).find? (fun x => x.1 == k) = rest.find? (fun x => x.1 == k) :=
        List.find?_cons_of_neg _ (by simp [h0])
      rw [List.foldl_cons, hfind, ih (confStep aiConf text acc p) hnd2,
        confStep_ne aiConf text acc p k h0]

/-! ### Slicing and whitespace lemmas -/

theorem take_pyminN {α : Type} (l : List α) (b : Nat) :
    l.take (pyminN l.length b) = l.take b := by
  unfold pyminN
  by_cases h : l.length ≤ b
  · rw [if_pos h, List.take_length, List.take_of_length_le h]
  · rw [if_neg h]

theorem filter_dropWhile (p : Char → Bool) (l : List Char)
    (hp : ∀ c, isPySpace c = true → p c = false) :
    (l.dropWhile isPySpace).filter p = l.filter p := by
  induction l with
  | nil => rfl
  | cons c rest ih =>
    by_cases h : isPySpace c = true
    · rw [List.dropWhile_cons_of_pos h, ih]
      simp [List.filter_cons, hp c h]
    · rw [List.dropWhile_cons_of_neg h]

theorem filter_stripList (p : Char → Bool) (l : List Char)
    (hp : ∀ c, isPySpace c = true → p c = false) :
    (stripList l).filter p = l.filter p := by
  unfold stripList
  rw [List.filter_reverse, filter_dropWhile p _ hp, List.filter_reverse,
    List.reverse_reverse, filter_dropWhile p _ hp]

theorem collapseWs_single (c : Char) :
    collapseWs [c] = if isPySpace c then [' '] else [c] := rfl

theorem collapseWs_cons_cons (c d : Char) (l : List Char) :
    collapseWs (c :: d :: l) =
      if isPySpace c then
        (if isPySpace d then collapseWs (d :: l) else ' ' :: collapseWs (d :: l))
      else c :: collapseWs (d :: l) := rfl

theorem filter_collapseWs (p : Char → Bool) (l : List Char)
    (hp : ∀ c, isPySpace c = true → p c = false) :
    (collapseWs l).filter p = l.filter p := by
  induction l with
  | nil => rfl
  | cons c rest ih =>
    cases rest with
    | nil =>
      by_cases h : isPySpace c = true
      · rw [collapseWs_single, if_pos h]
        simp [List.filter_cons, hp ' ' (by decide), hp c h]
      · rw [collapseWs_single, if_neg h]
    | cons d rest2 =>
      by_cases h : isPySpace c = true
      · rw [collapseWs_cons_cons, if_pos h]
        by_cases hd : isPySpace d = true
        · rw [if_pos hd, ih]
          simp [List.filter_cons, hp c h]
        · rw [if_neg hd]
          simp [List.filter_cons, hp ' ' (by decide), hp c h, ih]
      · rw [collapseWs_cons_cons, if_neg h]
        simp [List.filter_cons, ih]

theorem spaceNotDigDot : ∀ c, isPySpace c = true → clsDigDot c = false := by
  intro c hc
  have hor := of_decide_eq_true hc
  rcases hor with h | h | h | h | h | h <;> subst h <;> decide

/-! ### Lookup in Tier-C results and updated dicts -/

theorem dget_tierC_ne (text : String) (l : List (String × List RE)) (k : String)
    (h : ∀ fp ∈ l, ¬ fp.1 = k) :
    dget (l.filterMap (tierCField text)) k = none := by
  induction l with
  | nil => rfl
  | cons fp rest ih =>
    rw [List.filterMap_cons]
    cases hg : tierCField text fp with
    | none => exact ih (fun x hx => h x (List.mem_cons_of_mem _ hx))
    | some r =>
      have hr : ¬ r.1 = k := by
        rw [tierCField_key text fp r hg]
        exact h fp (List.mem_cons_self fp rest)
      simp only [dget, if_neg hr]
      exact ih (fun x hx => h x (List.mem_cons_of_mem _ hx))

theorem dget_dupdate {α : Type} (d add : List (String × α)) (k : String)
    (hnd : (add.map (fun p => p.1)).Nodup) :
    dget (dupdate d add) k = (dget add k).or (dget d k) := by
  induction add generalizing d with
  | nil => simp [dupdate, dget]
  | cons p rest ih =>
    have hnd2 := (List.nodup_cons.mp hnd).2
    unfold dupdate
    rw [List.foldl_cons]
    have hstep : rest.foldl (fun acc q => dset acc q.1 q.2) (dset d p.1 p.2) =
        dupdate (dset d p.1 p.2) rest := rfl
    rw [hstep, ih (dset d p.1 p.2) hnd2]
    by_cases h0 : p.1 = k
    · have hrk : dget rest k = none := by
        rw [dget_eq_find]
        cases hf : rest.find? (fun q => q.1 == k) with
        | none => rfl
        | some q =>
          exfalso
          apply (List.nodup_cons.mp hnd).1
          have hq : q.1 = k := by simpa using List.find?_some hf
          have hmem : q.1 ∈ List.map (fun x => x.1) rest :=
            List.mem_map_of_mem _ (List.mem_of_find?_eq_some hf)
          rwa [hq, ← h0] at hmem
      rw [hrk, dget_dset, if_pos h0.symm]
      simp only [dget, if_pos h0]
      rfl
    · have hk : ¬ k = p.1 := fun hh => h0 hh.symm
      simp only [dget, if_neg h0, dget_dset, if_neg hk]

theorem addKeys_nodup (text : String) :
    ((extractAdditionalFields text).map (fun p => p.1)).Nodup := by
  unfold extractAdditionalFields
  cases (reFindAll reEmail text).head? <;>
    cases (reFindAll rePhone text).head? <;>
      cases firstPatternMatch [reAddr1, reAddr2] text <;>
        simp [dset]

/-! ### Claim theorems -/

/-- C3: the Context Scorer returns 0.5 when the candidate value has no
case-insensitive occurrence in the text or the FieldKind has no defined
keyword set; otherwise it takes the window of 50 characters before and after
the first occurrence (clipped to the text bounds), lower-cases it, counts the
field's fixed keywords hitting that window, and returns
min(1.0, 0.5 + 0.2 × keyword_hit_count). -/
theorem c3_context_scorer (fieldType value text : String) :
    calculateContextConfidence fieldType value text =
      match pyFind (pyLower text) (pyLower value), contextKeywords fieldType with
      | some pos, some kws =>
        pymin 1 (1/2 +
          ((kws.countP (fun kw =>
              pyContains (pyLower (pySlice text (pos - 50) (pos + pyLen value + 50))) kw) : ℕ) :
            ℚ) * (2/10))
      | _, _ => 1/2 := by
  unfold calculateContextConfidence
  cases hf : pyFind (pyLower text) (pyLower value) with
  | none => rfl
  | some pos =>
    cases hck : contextKeywords fieldType with
    | none => rfl
    | some kws =>
      have hslice : pySlice text (pos - 50) (pyminN (pyLen text) (pos + pyLen value + 50)) =
          pySlice text (pos - 50) (pos + pyLen value + 50) := by
        unfold pySlice pyLen
        rw [take_pyminN]
      simp only [hslice, List.countP_eq_length_filter]

/-- C4: currency normalization strips all non-digit/non-dot characters and,
when no dot is present and the length exceeds 2, inserts a dot two characters
from the end; in particular `"1,234.50"` normalizes to `"1234.50"` and
`"123450"` normalizes to `"1234.50"`. -/
theorem c4_currency_normalization :
    (∀ v : String, cleanExtractedValue "total_amount" v =
      (if ¬ pyContains (pyKeep v clsDigDot) "." ∧ pyLen (pyKeep v clsDigDot) > 2 then
        pySlice (pyKeep v clsDigDot) 0 (pyLen (pyKeep v clsDigDot) - 2) ++ "." ++
          String.mk ((pyKeep v clsDigDot).data.drop (pyLen (pyKeep v clsDigDot) - 2))
      else pyKeep v clsDigDot)) ∧
    cleanExtractedValue "total_amount" "1,234.50" = "1234.50" ∧
    cleanExtractedValue "total_amount" "123450" = "1234.50" := by
  refine ⟨fun v => ?_, by decide, by decide⟩
  have hval : pyKeep (pyCollapseWs (pyStrip v)) clsDigDot = pyKeep v clsDigDot := by
    unfold pyKeep pyCollapseWs pyStrip
    rw [filter_collapseWs clsDigDot _ spaceNotDigDot, filter_stripList clsDigDot _ spaceNotDigDot]
  unfold cleanExtractedValue
  rw [if_pos rfl, hval]

/-- C5: in the per-field candidate selection shared by Tier-B
(`extract_with_lightweight_ai`) and Tier-C's regex pass
(`_extract_with_enhanced_regex`), the single highest-confidence candidate
wins and, when a later candidate ties with the running best, the
earlier-indexed one's value is kept: the first candidate attaining the
maximal confidence `c` is the result, regardless of later candidates with the
same confidence. -/
theorem c5_tie_break (pre mid post : List (Option (String × ℚ))) (v w : String) (c : ℚ)
    (hc : 0 < c)
    (hpre : ∀ x ∈ pre, ∀ p : String × ℚ, x = some p → p.2 < c)
    (hmid : ∀ x ∈ mid, ∀ p : String × ℚ, x = some p → p.2 ≤ c)
    (hpost : ∀ x ∈ post, ∀ p : String × ℚ, x = some p → p.2 ≤ c) :
    selectBest (pre ++ some (v, c) :: (mid ++ some (w, c) :: post)) = (some v, c) := by
  unfold selectBest
  have h1 : (List.foldl selStep (none, 0) pre).2 < c := selFold_lt pre (none, 0) c hc hpre
  have hsel : selStep (List.foldl selStep (none, 0) pre) (some (v, c)) = (some v, c) := by
    simp only [selStep]
    rw [if_pos h1]
  have h3 : selStep (some v, c) (some (w, c)) = (some v, c) := by
    simp only [selStep]
    rw [if_neg (lt_irrefl c)]
  calc List.foldl selStep (none, 0) (pre ++ some (v, c) :: (mid ++ some (w, c) :: post))
      = List.foldl selStep (selStep (List.foldl selStep (none, 0) pre) (some (v, c)))
          (mid ++ some (w, c) :: post) := by rw [List.foldl_append, List.foldl_cons]
    _ = List.foldl selStep (some v, c) (mid ++ some (w, c) :: post) := by rw [hsel]
    _ = List.foldl selStep (selStep (List.foldl selStep (some v, c) mid) (some (w, c)))
          post := by rw [List.foldl_append, List.foldl_cons]
    _ = List.foldl selStep (selStep (some v, c) (some (w, c))) post := by
          rw [selFold_le mid (some v, c) hmid]
    _ = List.foldl selStep (some v, c) post := by rw [h3]
    _ = (some v, c) := selFold_le post (some v, c) hpost

theorem c5_tie_break_witness :
    selectBest [some ("a", (1 : ℚ)/2), some ("b", (1 : ℚ)/2)] = (some "a", 1/2) := by
  have h := c5_tie_break [] [] [] "a" "b" (1/2) (by norm_num)
    (by intro x hx; simp at hx) (by intro x hx; simp at hx) (by intro x hx; simp at hx)
  simpa using h

/-- C6 as stated is false: the fixed modifiers stack once per matching
modifier pattern, so a value matching both currency patterns gains +0.30, not
the single +0.15 the claim allows; at base 0.6 and value `"1,234.50"` the code
yields 0.9 ≠ 0.75. -/
theorem c6_counterexample :
    calculateConfidence "total_amount" "1,234.50" "" (6/10) = 9/10 ∧
      (9/10 : ℚ) ≠ 6/10 + 15/100 := by
  refine ⟨by decide, by norm_num⟩

/-- C6 (amended): a Tier-B candidate's confidence is the rule's base
confidence plus the field's boost once for every matching modifier pattern
(`INV` literal, four-digit run, hyphen at +0.1 each for invoice numbers;
two-decimal tail and leading digit/comma run at +0.15 each for amounts;
leading capital and a lowercase run at +0.05 each for names), then halved when
the trimmed length is < 2, multiplied by 0.7 when it exceeds 100, and capped
at 1.0. -/
theorem c6_confidence_modifiers (fieldName value fullText : String) (base : ℚ) :
    calculateConfidence fieldName value fullText base =
      pymin (if pyLen (pyStrip value) < 2 then
            (base + (confidenceModifiers fieldName).2 *
              (((confidenceModifiers fieldName).1.countP
                  (fun pat => reSearchB pat value) : ℕ) : ℚ)) * (1/2)
          else if pyLen (pyStrip value) > 100 then
            (base + (confidenceModifiers fieldName).2 *
              (((confidenceModifiers fieldName).1.countP
                  (fun pat => reSearchB pat value) : ℕ) : ℚ)) * (7/10)
          else
            base + (confidenceModifiers fieldName).2 *
              (((confidenceModifiers fieldName).1.countP
                  (fun pat => reSearchB pat value) : ℕ) : ℚ)) 1 := by
  simp only [calculateConfidence]
  rw [foldl_boost]

/-- C7 as stated is false: the ×0.8 discount is applied to the dedicated
money category as well — a MONEY entity with model probability 0.9 is
recorded with confidence 0.72, not its own probability. -/
theorem c7_counterexample :
    dget (extractWithNer [⟨"100.00", "MONEY", 9/10⟩]).2 "total_amount" = some (18/25) ∧
      (18/25 : ℚ) ≠ 9/10 := ⟨by decide, by norm_num⟩

/-- C7 (amended): in the entity-recognition pass every recognized amount
entity — dedicated money category and generic numeric category alike — gets
the fixed ×0.8 confidence discount. -/
theorem c7_ner_discount (w ty : String) (s : ℚ)
    (hty : ty = "MONEY" ∨ ty = "CARDINAL") (hw : reSearchB reNumTail w = true) :
    dget (extractWithNer [⟨w, ty, s⟩]).2 "total_amount" = some (s * (8/10)) := by
  unfold extractWithNer nerStep
  rcases hty with h | h <;> subst h <;>
    simp [hw, dget, dget_dset]

theorem c7_ner_discount_witness :
    dget (extractWithNer [⟨"5,00", "CARDINAL", 1/2⟩]).2 "total_amount" =
      some ((1/2 : ℚ) * (8/10)) :=
  c7_ner_discount "5,00" "CARDINAL" (1/2) (Or.inr rfl) (by decide)

/-- C8 as stated is false in its email/phone clause: the heuristic returns
0.90 for `vendor_email`/`vendor_phone` unconditionally — here for the value
`"x"`, which matches no email shape. -/
theorem c8_counterexample :
    calculateHeuristicConfidence "vendor_email" "x" "" = 90/100 ∧
      reSearchB reEmail "x" = false := ⟨by decide, by decide⟩

/-- C8 (amended): a field the strategy re-run omits gets exactly the
field-shape heuristic value, where email/phone fields score 0.90
unconditionally (not only when shape-matched); the remaining rows are as the
claim states (0.95/0.85/0.70 invoice numbers, 0.90/0.80/0.60 currency,
0.88/0.85/0.70 dates, 0.85/0.75/0.60 vendor names, 0.75 default). -/
theorem c8_heuristic_confidence :
    (∀ (aiConf : CDict) (fields : Dict) (text f v : String),
        (fields.map (fun p => p.1)).Nodup → dget fields f = some v → dget aiConf f = none →
        dget (getConfidenceScores aiConf fields text) f =
          some (calculateHeuristicConfidence f v text)) ∧
    (∀ v t, calculateHeuristicConfidence "vendor_email" v t = 90/100) ∧
    (∀ v t, calculateHeuristicConfidence "vendor_phone" v t = 90/100) ∧
    calculateHeuristicConfidence "invoice_number" "INV-12345" "" = 95/100 ∧
    calculateHeuristicConfidence "total_amount" "1,234.50" "" = 90/100 ∧
    calculateHeuristicConfidence "invoice_date" "01/15/2024" "" = 88/100 ∧
    calculateHeuristicConfidence "vendor_name" "Acme Incorporated Co" "" = 85/100 ∧
    calculateHeuristicConfidence "payment_terms" "Net 30" "" = 75/100 := by
  refine ⟨?_, ?_, ?_, by decide, by decide, by decide, by decide, by decide⟩
  · intro aiConf fields text f v hnd hv hai
    unfold getConfidenceScores
    rw [confFold_dget aiConf text fields [] f hnd]
    rw [dget_eq_find] at hv
    cases hfind : fields.find? (fun p => p.1 == f) with
    | none => rw [hfind] at hv; exact absurd hv (by simp)
    | some p =>
      rw [hfind] at hv
      simp only [Option.map_some', Option.some_inj] at hv
      simp [hai, hv]
  · intro v t
    simp [calculateHeuristicConfidence]
  · intro v t
    simp [calculateHeuristicConfidence]

theorem c8_heuristic_confidence_witness :
    dget (getConfidenceScores [] [("invoice_number", "INV-12345")] "") "invoice_number" =
      some (calculateHeuristicConfidence "invoice_number" "INV-12345" "") :=
  c8_heuristic_confidence.1 [] [("invoice_number", "INV-12345")] "" "invoice_number"
    "INV-12345" (by decide) (by decide) (by decide)

/-- C9: when none of the three invoice-number patterns of Tier-C's regex pass
matches the text, the returned result simply lacks the `invoice_number` field;
the embedded strategy is a total function, so "no fields found" is an
ordinary empty result, not a failure. -/
theorem c9_no_invoice_pattern (text : String)
    (h1 : reFindAll reInv1 text = []) (h2 : reFindAll reInv2 text = [])
    (h3 : reFindAll reInv3 text = []) :
    dget (extractWithEnhancedRegex text) "invoice_number" = none := by
  unfold extractWithEnhancedRegex enhancedFieldPatterns
  rw [List.filterMap_cons]
  have hfield : tierCField text ("invoice_number", [reInv1, reInv2, reInv3]) = none := by
    simp [tierCField, tierCCandidates, h1, h2, h3, selectBest, selStep, List.enum,
      List.enumFrom]
  rw [hfield]
  exact dget_tierC_ne text _ "invoice_number" (by decide)

theorem c9_no_invoice_pattern_witness :
    dget (extractWithEnhancedRegex "hello world") "invoice_number" = none :=
  c9_no_invoice_pattern "hello world" (by decide) (by decide) (by decide)

/-- C10: after the strategy returns, the coordinator's extra regex pass
overwrites the strategy's fields: the first email-shaped substring becomes
`vendor_email`, the first phone-shaped substring becomes `vendor_phone`, and
the first match of the address patterns (tried in order) replaces any
`vendor_address` the strategy produced — whatever `aiFields` held before. -/
theorem c10_additional_fields_overwrite (aiFields : Dict) (text : String) :
    (∀ e, (reFindAll reEmail text).head? = some e →
      dget (extractInvoiceFields (some aiFields) text) "vendor_email" = some e) ∧
    (∀ p, (reFindAll rePhone text).head? = some p →
      dget (extractInvoiceFields (some aiFields) text) "vendor_phone" = some p) ∧
    (∀ a, firstPatternMatch [reAddr1, reAddr2] text = some a →
      dget (extractInvoiceFields (some aiFields) text) "vendor_address" = some a) := by
  have hnd := addKeys_nodup text
  have hupd : ∀ k, dget (extractInvoiceFields (some aiFields) text) k =
      (dget (extractAdditionalFields text) k).or (dget aiFields k) := by
    intro k
    unfold extractInvoiceFields
    dsimp only
    exact dget_dupdate aiFields (extractAdditionalFields text) k hnd
  refine ⟨?_, ?_, ?_⟩
  · intro e he
    have hadd : dget (extractAdditionalFields text) "vendor_email" = some e := by
      unfold extractAdditionalFields
      rw [he]
      cases hp : (reFindAll rePhone text).head? <;>
        cases ha : firstPatternMatch [reAddr1, reAddr2] text <;>
          simp [dget, dset, dget_dset]
    rw [hupd, hadd]
    rfl
  · intro p hp
    have hadd : dget (extractAdditionalFields text) "vendor_phone" = some p := by
      unfold extractAdditionalFields
      rw [hp]
      cases he : (reFindAll reEmail text).head? <;>
        cases ha : firstPatternMatch [reAddr1, reAddr2] text <;>
          simp [dget, dset, dget_dset]
    rw [hupd, hadd]
    rfl
  · intro a ha
    have hadd : dget (extractAdditionalFields text) "vendor_address" = some a := by
      unfold extractAdditionalFields
      rw [ha]
      cases he : (reFindAll reEmail text).head? <;>
        cases hp : (reFindAll rePhone text).head? <;>
          simp [dget, dset, dget_dset]
    rw [hupd, hadd]
    rfl

theorem c10_additional_fields_overwrite_witness :
    dget (extractInvoiceFields (some [("vendor_email", "old"), ("vendor_address", "old")])
        "a@b.co 555-123-4567 12 Main St") "vendor_email" = some "a@b.co" ∧
    dget (extractInvoiceFields (some [("vendor_email", "old"), ("vendor_address", "old")])
        "a@b.co 555-123-4567 12 Main St") "vendor_phone" = some "555-123-4567" ∧
    dget (extractInvoiceFields (some [("vendor_email", "old"), ("vendor_address", "old")])
        "a@b.co 555-123-4567 12 Main St") "vendor_address" = some "4567 12 Main St" := by
  have h := c10_additional_fields_overwrite [("vendor_email", "old"), ("vendor_address", "old")]
    "a@b.co 555-123-4567 12 Main St"
  exact ⟨h.1 "a@b.co" (by decide), h.2.1 "555-123-4567" (by decide),
    h.2.2 "4567 12 Main St" (by decide)⟩

/-- C2 as stated is false: on an exception from the active strategy the
coordinator falls back to its own basic pattern extraction
(`_fallback_extraction`), not to the Tier-C enhanced-regex strategy; on the
text `"AB-1234"` the fallback returns no fields while Tier-C called directly
returns an invoice number and an amount. -/
theorem c2_counterexample :
    extractInvoiceFields none "AB-1234" = [] ∧
    (extractWithEnhancedRegex "AB-1234").map (fun r => (r.1, r.2.1)) =
      [("invoice_number", "AB-1234"), ("total_amount", "1234")] ∧
    extractInvoiceFields none "AB-1234" ≠
      (extractWithEnhancedRegex "AB-1234").map (fun r => (r.1, r.2.1)) :=
  ⟨by decide, by decide, by decide⟩

/-- C2 (amended): an exception from the active strategy is caught and answered
with the coordinator's own basic-pattern fallback (`_fallback_extraction`) on
the same text — which is a different extractor from the Tier-C enhanced-regex
strategy and can disagree with it, as at `"AB-1234"`. -/
theorem c2_fallback_target :
    (∀ text, extractInvoiceFields none text = fallbackExtraction text) ∧
    fallbackExtraction "AB-1234" ≠
      (extractWithEnhancedRegex "AB-1234").map (fun r => (r.1, r.2.1)) :=
  ⟨fun _ => rfl, by decide⟩

/-- C1 as stated is false: validation filters only the field mapping, not the
confidence mapping — on `"total: 1,23"` the regex pass proposes
`total_amount = "1,23"`, which is rejected by validation, yet
`confidence_scores` still carries its entry while `extracted_fields` is
empty. -/
theorem c1_counterexample :
    (extractWithTransformers none none "total: 1,23").extracted_fields = [] ∧
    (extractWithTransformers none none "total: 1,23").confidence_scores =
      [("total_amount", 17/20)] := ⟨by decide, by decide⟩

/-- C1 (amended): the merged confidence for a field is the entity-pass value,
overridden by the QA pass exactly when the QA score is strictly higher (so the
maximum of the two when both propose it), while the regex pass contributes
only to fields neither pass proposed; normalization plays no role in the
confidence mapping — it filters `extracted_fields` only, and every field that
survives validation still has a confidence entry (the converse inclusion
fails, as the counterexample shows). -/
theorem c1_confidence_merge (es : List Entity) (model : String → Option (String × ℚ))
    (text k : String) :
    (dget (extractWithTransformers (some es) (some model) text).confidence_scores k =
      match dget (extractWithNer es).2 k,
            (extractWithQa model).find? (fun r => r.1 == k) with
      | some a, some r => some (max a r.2.2)
      | some a, none => some a
      | none, some r => some r.2.2
      | none, none =>
        ((extractWithEnhancedRegex text).find? (fun r => r.1 == k)).map
          (fun r => r.2.2)) ∧
    ((dget (extractWithTransformers (some es) (some model) text).extracted_fields k).isSome =
        true →
      (dget (extractWithTransformers (some es) (some model) text).confidence_scores k).isSome =
        true) := by
  have hsync1 : keySync (extractWithNer es) := keySync_ner es
  have hout : extractWithTransformers (some es) (some model) text =
      ⟨validateAndEnhanceFields ((extractWithEnhancedRegex text).foldl (mergeStep regexCond)
          ((extractWithQa model).foldl (mergeStep qaCond) (extractWithNer es))).1 text,
        ((extractWithEnhancedRegex text).foldl (mergeStep regexCond)
          ((extractWithQa model).foldl (mergeStep qaCond) (extractWithNer es))).2⟩ := by
    simp only [extractWithTransformers, qaStep, regexStep]
  have hq1 := mergeFold_find_fst qaCond (extractWithQa model) (extractWithNer es) k
    (qa_keys_nodup model)
  have hq2 := mergeFold_find_snd qaCond (extractWithQa model) (extractWithNer es) k
    (qa_keys_nodup model)
  have hr2 := mergeFold_find_snd regexCond (extractWithEnhancedRegex text)
    ((extractWithQa model).foldl (mergeStep qaCond) (extractWithNer es)) k
    (regex_keys_nodup text)
  rw [hout]
  constructor
  · show dget ((extractWithEnhancedRegex text).foldl (mergeStep regexCond)
        ((extractWithQa model).foldl (mergeStep qaCond) (extractWithNer es))).2 k = _
    rw [hr2]
    cases hn : dget (extractWithNer es).2 k with
    | some a =>
      have hn1s : (dget (extractWithNer es).1 k).isSome = true := by
        rw [hsync1 k, hn]
        rfl
      obtain ⟨w, hw⟩ := Option.isSome_iff_exists.mp hn1s
      cases hqf : (extractWithQa model).find? (fun r => r.1 == k) with
      | some r =>
        rw [hqf] at hq1 hq2
        dsimp only at hq1 hq2
        rw [hw, hn] at hq1 hq2
        by_cases hgt : r.2.2 > a
        · rw [if_pos (by simp [qaCond, hgt])] at hq1 hq2
          rw [hq1, hq2]
          cases hrf : (extractWithEnhancedRegex text).find? (fun x => x.1 == k) with
          | none => simp [max_eq_right (le_of_lt hgt)]
          | some x =>
            dsimp only
            rw [if_neg (by simp [regexCond])]
            simp [max_eq_right (le_of_lt hgt)]
        · rw [if_neg (by simp [qaCond, hgt])] at hq1 hq2
          rw [hq1, hq2]
          cases hrf : (extractWithEnhancedRegex text).find? (fun x => x.1 == k) with
          | none => simp [max_eq_left (not_lt.mp hgt)]
          | some x =>
            dsimp only
            rw [if_neg (by simp [regexCond])]
            simp [max_eq_left (not_lt.mp hgt)]
      | none =>
        rw [hqf] at hq1 hq2
        dsimp only at hq1 hq2
        rw [hq1, hq2, hw, hn]
        cases hrf : (extractWithEnhancedRegex text).find? (fun x => x.1 == k) with
        | none => rfl
        | some x =>
          dsimp only
          rw [if_neg (by simp [regexCond])]
    | none =>
      have hn1 : dget (extractWithNer es).1 k = none := by
        have hs := hsync1 k
        rw [hn] at hs
        cases hc : dget (extractWithNer es).1 k with
        | none => rfl
        | some w => rw [hc] at hs; exact absurd hs (by simp)
      cases hqf : (extractWithQa model).find? (fun r => r.1 == k) with
      | some r =>
        rw [hqf] at hq1 hq2
        dsimp only at hq1 hq2
        rw [if_pos (by simp [qaCond, hn1])] at hq1 hq2
        rw [hq1, hq2]
        cases hrf : (extractWithEnhancedRegex text).find? (fun x => x.1 == k) with
        | none => rfl
        | some x =>
          dsimp only
          rw [if_neg (by simp [regexCond])]
      | none =>
        rw [hqf] at hq1 hq2
        dsimp only at hq1 hq2
        rw [hq1, hq2, hn1, hn]
        cases hrf : (extractWithEnhancedRegex text).find? (fun x => x.1 == k) with
        | none => rfl
        | some x =>
          dsimp only
          rw [if_pos (by simp [regexCond])]
          rfl
  · intro hf
    have hmem := validateFold_mem
      ((extractWithEnhancedRegex text).foldl (mergeStep regexCond)
        ((extractWithQa model).foldl (mergeStep qaCond) (extractWithNer es))).1 text [] k hf
    rcases hmem with habs | hmem
    · exact absurd habs (by simp [dget])
    · have hsome1 := dget_mem_isSome _ k hmem
      have hsync3 : keySync ((extractWithEnhancedRegex text).foldl (mergeStep regexCond)
          ((extractWithQa model).foldl (mergeStep qaCond) (extractWithNer es))) :=
        keySync_mergeFold regexCond _ _ (keySync_mergeFold qaCond _ _ hsync1)
      show (dget ((extractWithEnhancedRegex text).foldl (mergeStep regexCond)
          ((extractWithQa model).foldl (mergeStep qaCond) (extractWithNer es))).2 k).isSome = true
      rw [← hsync3 k]
      exact hsome1

theorem c1_confidence_merge_witness :
    dget (extractWithTransformers (some [⟨"Acme Corp", "ORG", 3/4⟩])
        (some (fun _ => none)) "").confidence_scores "vendor_name" = some (3/4) ∧
    (dget (extractWithTransformers (some [⟨"Acme Corp", "ORG", 3/4⟩])
        (some (fun _ => none)) "").confidence_scores "vendor_name").isSome = true := by
  have h := c1_confidence_merge [⟨"Acme Corp", "ORG", 3/4⟩] (fun _ => none) "" "vendor_name"
  exact ⟨h.1.trans (by decide), h.2 (by decide)⟩

end Invoice
